import Mathlib

/-!
Verification of the blueprint subsystem of this repository
(src/src/js/game/blueprint.js) against its specification.

The `Blueprint` class and its methods are embedded from the source file.
Collaborators that live outside the staged sources (the `Vector` class of
core/vector.js, `SerializerInternal` of savegame/serializer_internal.js,
`findNiceIntegerValue` of core/utils.js, and the world logic reached through
`GameRoot`) are modelled from the specification, as marked on each
definition.
-/

/-- Integer 2D vector in tile coordinates, the shape of `Vector` values that
the blueprint code stores in entity origins. -/
structure Vec where
  x : Int
  y : Int
deriving DecidableEq, Repr

/-- Rational 2D vector, for the centroid arithmetic of `fromUids` (JS numbers
carry the fractional average before flooring). -/
structure QVec where
  x : ℚ
  y : ℚ
deriving DecidableEq, Repr

/-- Modelled from the spec: `Vector.add` of core/vector.js (not under src/) —
componentwise vector addition. -/
def Vec.add (a b : Vec) : Vec := ⟨a.x + b.x, a.y + b.y⟩

/-- Modelled from the spec: `Vector.sub` of core/vector.js (not under src/) —
componentwise vector subtraction. -/
def Vec.sub (a b : Vec) : Vec := ⟨a.x - b.x, a.y - b.y⟩

/-- Modelled from the spec: `Vector.addInplace` accumulation used by
`fromUids`, on rational vectors. -/
def QVec.add (a b : QVec) : QVec := ⟨a.x + b.x, a.y + b.y⟩

/-- Modelled from the spec: `Vector.divideScalarInplace` — divide both
components by a scalar. -/
def QVec.divScalar (v : QVec) (n : ℚ) : QVec := ⟨v.x / n, v.y / n⟩

/-- Modelled from the spec: `Vector.subScalars` — subtract the given scalars
from the two components. -/
def QVec.subScalars (v : QVec) (sx sy : ℚ) : QVec := ⟨v.x - sx, v.y - sy⟩

/-- Modelled from the spec: `Vector.floor` — floor both components to
integers. -/
def QVec.floor (v : QVec) : Vec := ⟨⌊v.x⌋, ⌊v.y⌋⟩

/-- Modelled from the spec: `Vector.rotateFastMultipleOf90` of core/vector.js
(not under src/) — exact rotation of a lattice point by a multiple of 90
degrees about the origin, implemented by axis swap plus sign flip, no
trigonometry. -/
def Vec.rotateFastMultipleOf90 (v : Vec) (angle : Nat) : Vec :=
  if angle = 90 then ⟨-v.y, v.x⟩
  else if angle = 180 then ⟨-v.x, -v.y⟩
  else if angle = 270 then ⟨v.y, -v.x⟩
  else v

/-- The static placement component of an entity: origin tile, rotation and
authored rotation in degrees, and the integer building-type code. -/
structure StaticMapEntity where
  origin : Vec
  rotation : Nat
  originalRotation : Nat
  code : Nat
deriving DecidableEq, Repr

/-- A live entity as the blueprint code sees it: a runtime-unique id, the
static placement component, the wiring-link component (`WiredPins`, payload
abstracted to a number) and an optional per-type extras payload (such as a
constant signal value), both optional. -/
structure Entity where
  uid : Nat
  staticMapEntity : StaticMapEntity
  wiredPins : Option Nat
  extras : Option Nat
deriving DecidableEq, Repr

/-- Modelled from the spec: `Entity.clone` (entity.js is not under src/) — a
structural copy of the entity's component state. -/
def Entity.clone (e : Entity) : Entity := e

/-- The `Blueprint` class: an ordered collection of entities. -/
structure Blueprint where
  entities : List Entity
deriving DecidableEq, Repr

/-- `Blueprint.rotateCw` on one static component: advance `rotation` and
`originalRotation` by 90 modulo 360 and rotate the origin by 90 degrees. -/
def StaticMapEntity.rotateCw (s : StaticMapEntity) : StaticMapEntity :=
  { s with
    rotation := (s.rotation + 90) % 360,
    originalRotation := (s.originalRotation + 90) % 360,
    origin := s.origin.rotateFastMultipleOf90 90 }

/-- The per-entity effect of `Blueprint.rotateCw`: only the static placement
component is touched. -/
def Entity.rotateCw (e : Entity) : Entity :=
  { e with staticMapEntity := e.staticMapEntity.rotateCw }

/-- `Blueprint.rotateCw`: rotate every entity of the blueprint clockwise. -/
def Blueprint.rotateCw (bp : Blueprint) : Blueprint :=
  ⟨bp.entities.map Entity.rotateCw⟩

/-- The `for (let i = 0; i < 3; ++i) this.rotateCw()` loop body of
`rotateCcw`, as iteration of `rotateCw`. -/
def rotateCwIter : Nat → Blueprint → Blueprint
  | 0, bp => bp
  | n + 1, bp => rotateCwIter n bp.rotateCw

/-- `Blueprint.rotateCcw`: three successive clockwise rotations. -/
def Blueprint.rotateCcw (bp : Blueprint) : Blueprint :=
  rotateCwIter 3 bp

lemma Entity.rotateCw_four (e : Entity)
    (h1 : e.staticMapEntity.rotation < 360)
    (h2 : e.staticMapEntity.originalRotation < 360) :
    e.rotateCw.rotateCw.rotateCw.rotateCw = e := by
  obtain ⟨u, ⟨⟨ox, oy⟩, r, orr, c⟩, w, ex⟩ := e
  simp only [Entity.rotateCw, StaticMapEntity.rotateCw, Vec.rotateFastMultipleOf90,
    reduceIte, Entity.mk.injEq, StaticMapEntity.mk.injEq, Vec.mk.injEq] at *
  and_intros <;> first | trivial | omega

lemma List.map_id_of_mem {α : Type} {l : List α} {f : α → α}
    (h : ∀ a ∈ l, f a = a) : l.map f = l := by
  induction l with
  | nil => rfl
  | cons a t ih =>
    simp only [List.map_cons, h a (by simp)]
    rw [ih (fun b hb => h b (by simp [hb]))]

/-- C6: applying `rotateCw` four times returns every entity of a blueprint to
its original origin, rotation and originalRotation (rotations being in the
data model's range [0, 360)), with exact integer equality. -/
theorem blueprint_rotateCw_four_identity (bp : Blueprint)
    (h : ∀ e ∈ bp.entities,
      e.staticMapEntity.rotation < 360 ∧ e.staticMapEntity.originalRotation < 360) :
    bp.rotateCw.rotateCw.rotateCw.rotateCw = bp := by
  obtain ⟨l⟩ := bp
  simp only [Blueprint.rotateCw, List.map_map]
  refine congrArg Blueprint.mk ?_
  refine List.map_id_of_mem (fun e he => ?_)
  exact Entity.rotateCw_four e (h e he).1 (h e he).2

/-- A sample entity used to instantiate proved theorems at concrete inputs. -/
def sampleEntity : Entity :=
  { uid := 7, staticMapEntity := ⟨⟨2, 3⟩, 90, 0, 27⟩, wiredPins := some 5, extras := some 11 }

/-- Witness for C6: the four-fold rotation identity at a concrete one-entity
blueprint. -/
theorem blueprint_rotateCw_four_identity_witness :
    (Blueprint.mk [sampleEntity]).rotateCw.rotateCw.rotateCw.rotateCw =
      Blueprint.mk [sampleEntity] :=
  blueprint_rotateCw_four_identity (Blueprint.mk [sampleEntity]) (by decide)

/-- C7: `rotateCcw` produces exactly the final state of three successive
applications of `rotateCw` — it is the three-step clockwise loop, not a
separately implemented direct minus-90-degree transform. -/
theorem blueprint_rotateCcw_is_three_cw (bp : Blueprint) :
    bp.rotateCcw = bp.rotateCw.rotateCw.rotateCw := rfl

/-- C10: `rotateCw` changes neither the number of entities nor their order,
and for every entity it leaves the uid, the wiring-link component, the extras
payload and the static component's building code unchanged — only origin,
rotation and originalRotation of the static placement component move. -/
theorem blueprint_rotateCw_frame (bp : Blueprint) :
    bp.rotateCw.entities.length = bp.entities.length ∧
    ∀ i (hi : i < bp.entities.length) (hi' : i < bp.rotateCw.entities.length),
      (bp.rotateCw.entities.get ⟨i, hi'⟩).uid = (bp.entities.get ⟨i, hi⟩).uid ∧
      (bp.rotateCw.entities.get ⟨i, hi'⟩).wiredPins = (bp.entities.get ⟨i, hi⟩).wiredPins ∧
      (bp.rotateCw.entities.get ⟨i, hi'⟩).extras = (bp.entities.get ⟨i, hi⟩).extras ∧
      (bp.rotateCw.entities.get ⟨i, hi'⟩).staticMapEntity.code =
        (bp.entities.get ⟨i, hi⟩).staticMapEntity.code := by
  constructor
  · simp [Blueprint.rotateCw]
  · intro i hi hi'
    simp only [Blueprint.rotateCw, List.get_eq_getElem, List.getElem_map]
    refine ⟨rfl, rfl, rfl, rfl⟩

/-- Modelled from the spec: the observable world state that `tryPlace`
mutates through `GameRoot` (root.js, root.map, root.entityMgr and
root.signals are not under src/): the static spatial storage, the entity
registry, the obstruction-clearing requests issued, and the achievement
events dispatched (each carrying one count per achievement signal). -/
structure PlacementState where
  mapEntities : List Entity
  registry : List Entity
  freed : List Entity
  achievementEvents : List (Nat × Nat)
deriving DecidableEq, Repr

/-- The clone-and-translate step of `tryPlace`:
`clone.components.StaticMapEntity.origin.addInplace(tile)`. -/
def Entity.translate (e : Entity) (tile : Vec) : Entity :=
  { e with staticMapEntity :=
    { e.staticMapEntity with origin := e.staticMapEntity.origin.add tile } }

/-- The entity loop of `tryPlace`: for each entity in order, skip it when the
placement oracle rejects it at the tile, otherwise clone it, translate its
origin by the tile, request the obstruction clear, insert into the static map
storage and the registry, and count the success. `canPlace` stands for the
external `root.logic.checkCanPlaceEntity` oracle (not under src/). -/
def tryPlaceLoop (canPlace : Entity → Vec → Bool) (tile : Vec) :
    List Entity → PlacementState → Nat → PlacementState × Nat
  | [], st, count => (st, count)
  | e :: rest, st, count =>
    if canPlace e tile then
      tryPlaceLoop canPlace tile rest
        { st with
          freed := st.freed ++ [(e.clone).translate tile],
          mapEntities := st.mapEntities ++ [(e.clone).translate tile],
          registry := st.registry ++ [(e.clone).translate tile] }
        (count + 1)
    else
      tryPlaceLoop canPlace tile rest st count

/-- `Blueprint.tryPlace`: run the entity loop, then dispatch the single
`bulkAchievementCheck` event carrying the successful-placement count for both
achievement signals, and return whether the count is nonzero. The
`performBulkOperation`/`performImmutableOperation` wrappers are
deferred-notification scopes around the body and are modelled as the body
itself. -/
def Blueprint.tryPlace (bp : Blueprint) (canPlace : Entity → Vec → Bool)
    (tile : Vec) (st : PlacementState) : Bool × PlacementState :=
  let out := tryPlaceLoop canPlace tile bp.entities st 0
  (out.2 != 0,
    { out.1 with achievementEvents := out.1.achievementEvents ++ [(out.2, out.2)] })

lemma tryPlaceLoop_eq (canPlace : Entity → Vec → Bool) (tile : Vec) :
    ∀ (l : List Entity) (st : PlacementState) (count : Nat),
      tryPlaceLoop canPlace tile l st count =
        ({ st with
            freed := st.freed ++ (l.filter (fun e => canPlace e tile)).map (fun e => (e.clone).translate tile),
            mapEntities := st.mapEntities ++ (l.filter (fun e => canPlace e tile)).map (fun e => (e.clone).translate tile),
            registry := st.registry ++ (l.filter (fun e => canPlace e tile)).map (fun e => (e.clone).translate tile) },
          count + (l.filter (fun e => canPlace e tile)).length) := by
  intro l
  induction l with
  | nil => intro st count; simp [tryPlaceLoop]
  | cons e rest ih =>
    intro st count
    by_cases h : canPlace e tile
    · simp only [tryPlaceLoop, h, if_pos, List.filter_cons_of_pos, List.map_cons,
        List.length_cons, ih]
      refine congrArg₂ Prod.mk ?_ (by omega)
      simp [List.append_assoc]
    · simp only [tryPlaceLoop, h, if_neg, List.filter_cons_of_neg, ih, Bool.false_eq_true,
        not_false_iff]

/-- C4: `tryPlace` visits the entities in order, re-validates each one at the
tile with the placement oracle, silently skips every rejected entity, and for
every accepted entity appends its translated clone to the obstruction-clear
requests, the static map storage and the entity registry (in sequence order,
prior placements never rolled back, the prior world contents preserved as a
prefix), returning true if and only if at least one entity was placed. -/
theorem blueprint_tryPlace_partial_success (bp : Blueprint)
    (canPlace : Entity → Vec → Bool) (tile : Vec) (st : PlacementState) :
    (bp.tryPlace canPlace tile st).2.mapEntities =
      st.mapEntities ++ (bp.entities.filter (fun e => canPlace e tile)).map (fun e => (e.clone).translate tile) ∧
    (bp.tryPlace canPlace tile st).2.registry =
      st.registry ++ (bp.entities.filter (fun e => canPlace e tile)).map (fun e => (e.clone).translate tile) ∧
    (bp.tryPlace canPlace tile st).2.freed =
      st.freed ++ (bp.entities.filter (fun e => canPlace e tile)).map (fun e => (e.clone).translate tile) ∧
    ((bp.tryPlace canPlace tile st).1 = true ↔
      (bp.entities.filter (fun e => canPlace e tile)).map (fun e => (e.clone).translate tile) ≠ []) := by
  simp only [Blueprint.tryPlace, tryPlaceLoop_eq]
  refine ⟨trivial, trivial, trivial, ?_⟩
  simp only [Nat.zero_add, bne_iff_ne, ne_eq, List.map_eq_nil_iff, Decidable.not_not]
  rw [Iff.comm, not_iff_comm, List.length_eq_zero]
  tauto

/-- C5: every invocation of `tryPlace` appends exactly one aggregated
achievement event, carrying the total count of successfully placed entities
for both achievement signals, even when that count is zero. -/
theorem blueprint_tryPlace_single_stats_event (bp : Blueprint)
    (canPlace : Entity → Vec → Bool) (tile : Vec) (st : PlacementState) :
    (bp.tryPlace canPlace tile st).2.achievementEvents =
      st.achievementEvents ++
        [((bp.entities.filter (fun e => canPlace e tile)).length,
          (bp.entities.filter (fun e => canPlace e tile)).length)] := by
  simp [Blueprint.tryPlace, tryPlaceLoop_eq]

/-- The static placement sub-record of a serialized entry, each field possibly
absent (`undefined` in JS). -/
structure SerializedStatic where
  origin : Option Vec
  rotation : Option Nat
  originalRotation : Option Nat
  code : Option Nat
deriving DecidableEq, Repr

/-- The components sub-record of a serialized entry: the static placement
record, the wiring-link record, and the extras payload, each possibly
absent. -/
structure SerializedComponents where
  staticMapEntity : Option SerializedStatic
  wiredPins : Option Nat
  extras : Option Nat
deriving DecidableEq, Repr

/-- One element of the externally supplied blueprint value: a record whose
`uid` and `components` fields may each be absent. -/
structure SerializedEntity where
  uid : Option Nat
  components : Option SerializedComponents
deriving DecidableEq, Repr

/-- The externally supplied value handed to `Blueprint.deserialize`: not an
object at all, an object that is not an array, or an array of element
records. -/
inductive BlueprintJson where
  | notObject : BlueprintJson
  | nonArrayObject : BlueprintJson
  | array : List SerializedEntity → BlueprintJson
deriving DecidableEq, Repr

/-- Modelled from the spec: `SerializerInternal.serializeEntityArray`
(savegame/serializer_internal.js is not under src/) on one entity — encodes
the uid and every component, including the wiring-link component that
`Blueprint.serialize` strips afterwards. -/
def serializeEntity (e : Entity) : SerializedEntity :=
  { uid := some e.uid,
    components := some
      { staticMapEntity := some
          { origin := some e.staticMapEntity.origin,
            rotation := some e.staticMapEntity.rotation,
            originalRotation := some e.staticMapEntity.originalRotation,
            code := some e.staticMapEntity.code },
        wiredPins := e.wiredPins,
        extras := e.extras } }

/-- Modelled from the spec: `SerializerInternal.serializeEntityArray` over the
entity list. -/
def serializeEntityArray (es : List Entity) : List SerializedEntity :=
  es.map serializeEntity

/-- The `delete entry.uid; delete entry.components.WiredPins` loop body of
`Blueprint.serialize`. -/
def stripEntry (entry : SerializedEntity) : SerializedEntity :=
  { entry with
    uid := none,
    components := entry.components.map (fun c => { c with wiredPins := none }) }

/-- `Blueprint.serialize`: serialize the entity array, then remove the uid
field and the WiredPins component from every entry. -/
def Blueprint.serialize (bp : Blueprint) : List SerializedEntity :=
  (serializeEntityArray bp.entities).map stripEntry

/-- Modelled from the spec: `SerializerInternal.deserializeEntity` — rebuilds
a live entity from a snapshot, assigning a fresh runtime uid (modelled as 0),
or reports a failure reason (JS returns a string; reasons are modelled as
numeric codes). -/
def deserializeEntity (entry : SerializedEntity) : Entity ⊕ Nat :=
  match entry.components with
  | none => Sum.inr 1
  | some comps =>
    match comps.staticMapEntity with
    | none => Sum.inr 2
    | some sd =>
      match sd.origin, sd.rotation, sd.originalRotation, sd.code with
      | some o, some r, some orr, some c =>
        Sum.inl
          { uid := 0,
            staticMapEntity := ⟨o, r, orr, c⟩,
            wiredPins := comps.wiredPins,
            extras := comps.extras }
      | _, _, _, _ => Sum.inr 3

/-- The element loop of `Blueprint.deserialize`, with the structural guards of
blueprint.js lines 143-148 and the `throw` on a failed entity
reconstruction; `de` stands for `serializer.deserializeEntity`. The
`Except.error` constructor is the thrown exception, `Except.ok none` a silent
structural early return. -/
def deserializeEntries (de : SerializedEntity → Entity ⊕ Nat) :
    List SerializedEntity → List Entity → Except Nat (Option (List Entity))
  | [], acc => Except.ok (some acc)
  | v :: rest, acc =>
    match v.components with
    | none => Except.ok none
    | some comps =>
      match comps.staticMapEntity with
      | none => Except.ok none
      | some sd =>
        if sd.code = none ∨ sd.origin = none then Except.ok none
        else
          match de v with
          | Sum.inr msg => Except.error msg
          | Sum.inl ent => deserializeEntries de rest (acc ++ [ent])

/-- The `try` block of `Blueprint.deserialize`: reject non-objects and
non-arrays, then run the element loop. -/
def deserializeTry (de : SerializedEntity → Entity ⊕ Nat) :
    BlueprintJson → Except Nat (Option Blueprint)
  | BlueprintJson.notObject => Except.ok none
  | BlueprintJson.nonArrayObject => Except.ok none
  | BlueprintJson.array entries =>
    match deserializeEntries de entries [] with
    | Except.error msg => Except.error msg
    | Except.ok none => Except.ok none
    | Except.ok (some es) => Except.ok (some ⟨es⟩)

/-- What the caller of `Blueprint.deserialize` observes: the returned value
(a blueprint, or nothing) and whether the catch block logged an error. -/
structure DeserializeResult where
  result : Option Blueprint
  logged : Bool
deriving DecidableEq, Repr

/-- `Blueprint.deserialize`: the try block with its surrounding catch, which
converts any thrown reconstruction error into a logged empty result. -/
def Blueprint.deserialize (de : SerializedEntity → Entity ⊕ Nat)
    (json : BlueprintJson) : DeserializeResult :=
  match deserializeTry de json with
  | Except.ok r => ⟨r, false⟩
  | Except.error _ => ⟨none, true⟩

/-- The per-element success condition of the batch decode, as one Option-level
function: the element passes the structural guards and the entity
reconstruction. -/
def decodeElem (de : SerializedEntity → Entity ⊕ Nat)
    (v : SerializedEntity) : Option Entity :=
  match v.components with
  | none => none
  | some comps =>
    match comps.staticMapEntity with
    | none => none
    | some sd =>
      if sd.code = none ∨ sd.origin = none then none
      else
        match de v with
        | Sum.inr _ => none
        | Sum.inl ent => some ent



/-- The spec's batch contract `decodeAll`, written from its words: an ordered
sequence is decoded element by element, and the batch yields a sequence only
if every element decodes successfully, in order. -/
def decodeAll (de : SerializedEntity → Entity ⊕ Nat) :
    List SerializedEntity → Option (List Entity)
  | [] => some []
  | v :: rest =>
    match decodeElem de v with
    | none => none
    | some e => (decodeAll de rest).map (fun es => e :: es)

lemma deserializeEntries_cases (de : SerializedEntity → Entity ⊕ Nat) :
    ∀ (entries : List SerializedEntity) (acc : List Entity),
      (∃ tail, decodeAll de entries = some tail ∧
        deserializeEntries de entries acc = Except.ok (some (acc ++ tail))) ∨
      (decodeAll de entries = none ∧
        (deserializeEntries de entries acc = Except.ok none ∨
          ∃ msg, deserializeEntries de entries acc = Except.error msg)) := by
  intro entries
  induction entries with
  | nil =>
    intro acc
    exact Or.inl ⟨[], rfl, by simp [deserializeEntries]⟩
  | cons v rest ih =>
    intro acc
    cases hc : v.components with
    | none =>
      refine Or.inr ⟨?_, Or.inl ?_⟩
      · simp [decodeAll, decodeElem, hc]
      · simp [deserializeEntries, hc]
    | some comps =>
      cases hs : comps.staticMapEntity with
      | none =>
        refine Or.inr ⟨?_, Or.inl ?_⟩
        · simp [decodeAll, decodeElem, hc, hs]
        · simp [deserializeEntries, hc, hs]
      | some sd =>
        by_cases hg : sd.code = none ∨ sd.origin = none
        · refine Or.inr ⟨?_, Or.inl ?_⟩
          · simp [decodeAll, decodeElem, hc, hs, hg]
          · simp [deserializeEntries, hc, hs, hg]
        · have hstep : deserializeEntries de (v :: rest) acc =
              (match de v with
                | Sum.inr msg => Except.error msg
                | Sum.inl ent => deserializeEntries de rest (acc ++ [ent])) := by
            simp [deserializeEntries, hc, hs, hg]
          cases hd : de v with
          | inr msg =>
            refine Or.inr ⟨?_, Or.inr ⟨msg, ?_⟩⟩
            · simp [decodeAll, decodeElem, hc, hs, hg, hd]
            · rw [hstep, hd]
          | inl ent =>
            rcases ih (acc ++ [ent]) with ⟨tail, hm, he⟩ | ⟨hm, he⟩
            · refine Or.inl ⟨ent :: tail, ?_, ?_⟩
              · simp [decodeAll, decodeElem, hc, hs, hg, hd, hm]
              · rw [hstep, hd]
                simpa [List.append_assoc] using he
            · refine Or.inr ⟨?_, ?_⟩
              · simp [decodeAll, decodeElem, hc, hs, hg, hd, hm]
              · rw [hstep, hd]
                exact he

/-- C2: `deserialize` returns a blueprint exactly when the input is an array
every element of which passes the structural guards and reconstructs
successfully, in order; any single failing element (or a non-array input)
yields no blueprint at all — never a partial one. -/
theorem blueprint_deserialize_atomic (de : SerializedEntity → Entity ⊕ Nat)
    (json : BlueprintJson) (bp : Blueprint) :
    (Blueprint.deserialize de json).result = some bp ↔
      ∃ entries, json = BlueprintJson.array entries ∧
        decodeAll de entries = some bp.entities := by
  cases json with
  | notObject => simp [Blueprint.deserialize, deserializeTry]
  | nonArrayObject => simp [Blueprint.deserialize, deserializeTry]
  | array entries =>
    simp only [Blueprint.deserialize, deserializeTry]
    rcases deserializeEntries_cases de entries [] with ⟨tail, hm, he⟩ | ⟨hm, he⟩
    · rw [he]
      simp only [List.nil_append]
      constructor
      · intro hb
        obtain rfl : bp = ⟨tail⟩ := by
          cases bp; simpa using hb.symm
        exact ⟨entries, rfl, hm⟩
      · rintro ⟨entries2, heq, hm2⟩
        injection heq with h
        subst h
        rw [hm] at hm2
        obtain ⟨e2⟩ := bp
        simp only [Option.some.injEq] at hm2
        simp [hm2]
    · rcases he with he | ⟨msg, he⟩ <;> rw [he]
      · constructor
        · intro h; simp at h
        · rintro ⟨entries2, heq, hm2⟩
          injection heq with h
          subst h
          rw [hm] at hm2
          exact absurd hm2 (by simp)
      · constructor
        · intro h; simp at h
        · rintro ⟨entries2, heq, hm2⟩
          injection heq with h
          subst h
          rw [hm] at hm2
          exact absurd hm2 (by simp)

/-- Counterexample to C3: the array whose single element is the empty record
is a failing input (no blueprint is produced), yet `deserialize` takes the
silent structural early return of blueprint.js line 144 and its catch block
never runs — no log entry is produced. -/
theorem blueprint_deserialize_structural_fail_unlogged :
    (Blueprint.deserialize deserializeEntity
        (BlueprintJson.array [⟨none, none⟩])).result = none ∧
      (Blueprint.deserialize deserializeEntity
        (BlueprintJson.array [⟨none, none⟩])).logged = false :=
  ⟨rfl, rfl⟩

/-- C3 (amended): no failure of `deserialize` ever reaches the caller as an
exception — the try block's thrown errors are exactly what the catch block
turns into a logged empty result, so the caller always receives either a
blueprint or an empty result; domain reconstruction failures (the thrown
ones) are logged, while structural failures return an empty result silently,
without a log entry. -/
theorem blueprint_deserialize_failures_soft (de : SerializedEntity → Entity ⊕ Nat)
    (json : BlueprintJson) :
    ((Blueprint.deserialize de json).logged = true ↔
      ∃ msg, deserializeTry de json = Except.error msg) ∧
    (∀ msg, deserializeTry de json = Except.error msg →
      Blueprint.deserialize de json = ⟨none, true⟩) ∧
    (deserializeTry de json = Except.ok none →
      Blueprint.deserialize de json = ⟨none, false⟩) := by
  refine ⟨?_, ?_, ?_⟩
  · cases h : deserializeTry de json with
    | ok r => simp [Blueprint.deserialize, h]
    | error m => simp [Blueprint.deserialize, h]
  · intro msg h
    simp [Blueprint.deserialize, h]
  · intro h
    simp [Blueprint.deserialize, h]

lemma deserializeEntries_serialize (es : List Entity) :
    ∀ acc, deserializeEntries deserializeEntity (es.map (fun e => stripEntry (serializeEntity e))) acc =
      Except.ok (some (acc ++ es.map (fun e => { e with uid := 0, wiredPins := none }))) := by
  induction es with
  | nil => intro acc; simp [deserializeEntries]
  | cons e rest ih =>
    intro acc
    rw [List.map_cons]
    have h1 : deserializeEntries deserializeEntity
        (stripEntry (serializeEntity e) :: rest.map (fun e => stripEntry (serializeEntity e))) acc =
        deserializeEntries deserializeEntity (rest.map (fun e => stripEntry (serializeEntity e)))
          (acc ++ [{ e with uid := 0, wiredPins := none }]) := by
      simp [deserializeEntries, stripEntry, serializeEntity, deserializeEntity]
    rw [h1, ih]
    simp [List.append_assoc]

/-- C9: `serialize` strips the uid field and the WiredPins component from
every serialized entry, and `deserialize` on a serialized blueprint
reconstructs every entity equal to the original in all fields except the
runtime-unique id (freshly assigned) and the wiring-link state (absent). -/
theorem blueprint_serialize_roundtrip :
    (∀ (bp : Blueprint) (entry : SerializedEntity), entry ∈ bp.serialize →
      entry.uid = none ∧
      ∀ c, entry.components = some c → c.wiredPins = none) ∧
    (∀ bp : Blueprint,
      (Blueprint.deserialize deserializeEntity (BlueprintJson.array bp.serialize)).result =
        some ⟨bp.entities.map (fun e => { e with uid := 0, wiredPins := none })⟩) := by
  constructor
  · rintro bp entry hm
    simp only [Blueprint.serialize, serializeEntityArray, List.map_map, List.mem_map] at hm
    obtain ⟨e, _, rfl⟩ := hm
    refine ⟨rfl, ?_⟩
    intro c hc
    simp only [Function.comp, stripEntry, serializeEntity, Option.map_some',
      Option.some.injEq] at hc
    rw [← hc]
  · intro bp
    have h : bp.serialize = bp.entities.map (fun e => stripEntry (serializeEntity e)) := by
      simp [Blueprint.serialize, serializeEntityArray, List.map_map]
    simp only [Blueprint.deserialize, deserializeTry, h,
      deserializeEntries_serialize bp.entities [], List.nil_append]

/-- Modelled from the spec: the entity manager reached through `GameRoot`
(root.js and entity_manager.js are not under src/) — it owns the live
entities and finds one by uid. -/
structure EntityManager where
  entities : List Entity
deriving DecidableEq, Repr

/-- Modelled from the spec: `EntityManager.findByUid` — the world query
`findEntity(id)`, yielding the live entity or nothing. -/
def EntityManager.findByUid (mgr : EntityManager) (uid : Nat) : Option Entity :=
  mgr.entities.find? (fun e => e.uid == uid)

/-- The slice of `GameRoot` that `fromUids` uses. -/
structure GameRoot where
  entityMgr : EntityManager
deriving DecidableEq, Repr

/-- The first loop of `fromUids`: look up each uid in input order, asserting
that it resolves (the fatal assertion of a missing entity is modelled as
`none`), and collect the clones in input order. -/
def resolveUids (root : GameRoot) : List Nat → Option (List Entity)
  | [] => some []
  | uid :: rest => do
    let e ← root.entityMgr.findByUid uid
    let es ← resolveUids root rest
    pure (e.clone :: es)

/-- `Blueprint.fromUids`: resolve every uid to its live entity, clone the
entities, average the tile-space bounding-box centers, derive the anchor as
`floor(average − (0.5, 0.5))`, and translate every clone's origin by the
negated anchor. `center` stands for the external
`getTileSpaceBounds().getCenter()` collaborator (the static map entity
component code is not under src/). -/
def Blueprint.fromUids (center : Entity → QVec) (root : GameRoot)
    (uids : List Nat) : Option Blueprint := do
  let newEntities ← resolveUids root uids
  let averagePosition : QVec := newEntities.foldl (fun acc e => acc.add (center e)) ⟨0, 0⟩
  let avg : QVec := averagePosition.divScalar (uids.length : ℚ)
  let blueprintOrigin : Vec := (avg.subScalars (1 / 2) (1 / 2)).floor
  pure ⟨newEntities.map (fun e =>
    { e with staticMapEntity :=
      { e.staticMapEntity with
        origin := e.staticMapEntity.origin.sub blueprintOrigin } })⟩

lemma foldl_qvec_add (center : Entity → QVec) :
    ∀ (l : List Entity) (init : QVec),
      l.foldl (fun acc e => acc.add (center e)) init =
        ⟨init.x + (l.map (fun e => (center e).x)).sum,
          init.y + (l.map (fun e => (center e).y)).sum⟩ := by
  intro l
  induction l with
  | nil => intro init; simp
  | cons e rest ih =>
    intro init
    rw [List.foldl_cons, ih]
    simp only [QVec.add, List.map_cons, List.sum_cons]
    refine congrArg₂ QVec.mk (by ring) (by ring)

/-- Modelled from the spec: the tile-space bounding-box center collaborator as
the spec's end-to-end scenario computes it — for the scenario's entities the
centroid of positions (2,2), (3,2), (2,3) is (2.33, 2.33), so the center of
such an entity is its origin. -/
def specCenter : Entity → QVec := fun e =>
  ⟨(e.staticMapEntity.origin.x : ℚ), (e.staticMapEntity.origin.y : ℚ)⟩

/-- The scenario entity at a given tile position. -/
def scenarioEntity (uid : Nat) (x y : Int) : Entity :=
  { uid := uid, staticMapEntity := ⟨⟨x, y⟩, 0, 0, 31⟩, wiredPins := none, extras := none }

/-- The scenario world: three live entities at tile positions (2,2), (3,2)
and (2,3). -/
def scenarioRoot : GameRoot :=
  ⟨⟨[scenarioEntity 1 2 2, scenarioEntity 2 3 2, scenarioEntity 3 2 3]⟩⟩

/-- C1: on a non-empty selection whose uids all resolve, `fromUids` computes
the anchor as the componentwise floor of (centroid − (0.5, 0.5)), the
centroid being the average of the entities' tile-space bounding-box centers,
and translates every cloned entity's origin by the negated anchor, preserving
input order; in particular the selection of three entities at (2,2), (3,2),
(2,3) yields template entities at local positions (1,1), (2,1), (1,2). -/
theorem blueprint_fromUids_anchor :
    (∀ (center : Entity → QVec) (root : GameRoot) (uids : List Nat) (es : List Entity),
      uids ≠ [] → resolveUids root uids = some es →
      Blueprint.fromUids center root uids =
        some ⟨es.map (fun e =>
          { e with staticMapEntity := { e.staticMapEntity with origin :=
            ⟨e.staticMapEntity.origin.x -
                ⌊(es.map (fun e2 => (center e2).x)).sum / (uids.length : ℚ) - 1 / 2⌋,
              e.staticMapEntity.origin.y -
                ⌊(es.map (fun e2 => (center e2).y)).sum / (uids.length : ℚ) - 1 / 2⌋⟩ } })⟩) ∧
    Blueprint.fromUids specCenter scenarioRoot [1, 2, 3] =
      some ⟨[scenarioEntity 1 1 1, scenarioEntity 2 2 1, scenarioEntity 3 1 2]⟩ := by
  have main : ∀ (center : Entity → QVec) (root : GameRoot) (uids : List Nat) (es : List Entity),
      uids ≠ [] → resolveUids root uids = some es →
      Blueprint.fromUids center root uids =
        some ⟨es.map (fun e =>
          { e with staticMapEntity := { e.staticMapEntity with origin :=
            ⟨e.staticMapEntity.origin.x -
                ⌊(es.map (fun e2 => (center e2).x)).sum / (uids.length : ℚ) - 1 / 2⌋,
              e.staticMapEntity.origin.y -
                ⌊(es.map (fun e2 => (center e2).y)).sum / (uids.length : ℚ) - 1 / 2⌋⟩ } })⟩ := by
    intro center root uids es hne hres
    simp only [Blueprint.fromUids, hres, Option.bind_eq_bind, Option.some_bind,
      foldl_qvec_add, QVec.divScalar, QVec.subScalars, QVec.floor, Vec.sub, zero_add,
      Option.pure_def]
  refine ⟨main, ?_⟩
  have hres : resolveUids scenarioRoot [1, 2, 3] =
      some [scenarioEntity 1 2 2, scenarioEntity 2 3 2, scenarioEntity 3 2 3] := by
    decide
  rw [main specCenter scenarioRoot [1, 2, 3]
    [scenarioEntity 1 2 2, scenarioEntity 2 3 2, scenarioEntity 3 2 3]
    (by decide) hres]
  have hfx : ⌊(((2 : ℚ) + (3 + (2 + 0))) / 3 - 1 / 2)⌋ = 1 := by
    rw [Int.floor_eq_iff]
    norm_num
  have hfy : ⌊(((2 : ℚ) + (2 + (3 + 0))) / 3 - 1 / 2)⌋ = 1 := by
    rw [Int.floor_eq_iff]
    norm_num
  simp only [scenarioEntity, specCenter, List.map_cons, List.map_nil, List.sum_cons,
    List.sum_nil, List.length_cons, List.length_nil]
  norm_num [hfx, hfy]

/-- Modelled from the spec: the rounding-step table of round_to_nice
(`findNiceValue` of core/utils.js is not under src/) — the step grows with
the magnitude of the input. -/
def roundAmount (q : ℚ) : ℚ :=
  if q > 50000 then 10000
  else if q > 20000 then 5000
  else if q > 5000 then 1000
  else if q > 2000 then 500
  else if q > 1000 then 100
  else if q > 100 then 25
  else if q > 20 then 5
  else 1

/-- Modelled from the spec: round_to_nice — floor the value to a multiple of
its rounding step, passing very large values through unchanged. -/
def findNiceValue (q : ℚ) : ℚ :=
  if q > 100000000 then q
  else (⌊q / roundAmount q⌋ : ℚ) * roundAmount q

/-- Modelled from the spec: `findNiceIntegerValue` of core/utils.js — the
integer ceiling of the nice value. -/
def findNiceIntegerValue (q : ℚ) : ℤ := ⌈findNiceValue q⌉

/-- `Blueprint.getCost`: zero under the development no-cost override,
otherwise round_to_nice of 4 times the entity count to the power 1.1. The
power factor is the `pow11` argument, since `4 * Math.pow(count, 1.1)` is
floating-point arithmetic evaluated outside this file's scope; the claim's
theorem assumes of it only what the spec states (monotone growth). -/
def Blueprint.getCost (debugNoCost : Bool) (pow11 : Nat → ℚ) (bp : Blueprint) : ℤ :=
  if debugNoCost then 0 else findNiceIntegerValue (pow11 bp.entities.length)

lemma roundAmount_pos (q : ℚ) : 0 < roundAmount q := by
  unfold roundAmount
  split_ifs <;> norm_num

set_option maxHeartbeats 1600000 in
lemma roundAmount_mono {a b : ℚ} (hab : a ≤ b) : roundAmount a ≤ roundAmount b := by
  unfold roundAmount
  split_ifs <;> linarith

lemma floor_mul_le (q r : ℚ) (hr : 0 < r) : (⌊q / r⌋ : ℚ) * r ≤ q := by
  have h := Int.floor_le (q / r)
  have h2 : (⌊q / r⌋ : ℚ) * r ≤ (q / r) * r := mul_le_mul_of_nonneg_right h hr.le
  rwa [div_mul_cancel₀ q hr.ne'] at h2

lemma floor_mul_mono (r : ℚ) (hr : 0 < r) {a b : ℚ} (hab : a ≤ b) :
    (⌊a / r⌋ : ℚ) * r ≤ (⌊b / r⌋ : ℚ) * r := by
  have hdiv : a / r ≤ b / r := by gcongr
  have h : ⌊a / r⌋ ≤ ⌊b / r⌋ := Int.floor_le_floor hdiv
  exact mul_le_mul_of_nonneg_right (by exact_mod_cast h) hr.le

lemma le_floor_mul (k : ℤ) (r q : ℚ) (hr : 0 < r) (hk : (k : ℚ) * r ≤ q) :
    (k : ℚ) * r ≤ (⌊q / r⌋ : ℚ) * r := by
  have h : (k : ℚ) ≤ q / r := (le_div_iff₀ hr).mpr hk
  have h2 : k ≤ ⌊q / r⌋ := Int.le_floor.mpr h
  exact mul_le_mul_of_nonneg_right (by exact_mod_cast h2) hr.le

lemma findNiceValue_le (q : ℚ) : findNiceValue q ≤ q := by
  unfold findNiceValue
  split_ifs with h
  · exact le_rfl
  · exact floor_mul_le q (roundAmount q) (roundAmount_pos q)

/-- The lower edge of the rounding band a value lies in: every band's edge is
itself a multiple of the band's rounding step. -/
def bandLow (q : ℚ) : ℚ :=
  if q > 50000 then 50000
  else if q > 20000 then 20000
  else if q > 5000 then 5000
  else if q > 2000 then 2000
  else if q > 1000 then 1000
  else if q > 100 then 100
  else if q > 20 then 20
  else 0

set_option maxHeartbeats 1600000 in
lemma le_bandLow {a b : ℚ} (hab : a ≤ b) (hlt : roundAmount a < roundAmount b) :
    a ≤ bandLow b ∧ 20 < b := by
  unfold roundAmount at hlt
  unfold bandLow
  split_ifs at hlt ⊢ <;> constructor <;> linarith

lemma bandLow_le_floor_mul {b : ℚ} (hb : 20 < b) :
    bandLow b ≤ (⌊b / roundAmount b⌋ : ℚ) * roundAmount b := by
  unfold bandLow roundAmount
  split_ifs with h1 h2 h3 h4 h5 h6
  · have h := le_floor_mul 5 10000 b (by norm_num) (by push_cast; linarith)
    push_cast at h
    linarith
  · have h := le_floor_mul 4 5000 b (by norm_num) (by push_cast; linarith)
    push_cast at h
    linarith
  · have h := le_floor_mul 5 1000 b (by norm_num) (by push_cast; linarith)
    push_cast at h
    linarith
  · have h := le_floor_mul 4 500 b (by norm_num) (by push_cast; linarith)
    push_cast at h
    linarith
  · have h := le_floor_mul 10 100 b (by norm_num) (by push_cast; linarith)
    push_cast at h
    linarith
  · have h := le_floor_mul 4 25 b (by norm_num) (by push_cast; linarith)
    push_cast at h
    linarith
  · have h := le_floor_mul 4 5 b (by norm_num) (by push_cast; linarith)
    push_cast at h
    linarith

lemma cross_band {a b : ℚ} (hab : a ≤ b) (hlt : roundAmount a < roundAmount b) :
    a ≤ (⌊b / roundAmount b⌋ : ℚ) * roundAmount b := by
  obtain ⟨h1, h2⟩ := le_bandLow hab hlt
  exact le_trans h1 (bandLow_le_floor_mul h2)

lemma findNiceValue_mono {a b : ℚ} (hab : a ≤ b) :
    findNiceValue a ≤ findNiceValue b := by
  unfold findNiceValue
  split_ifs with h1 h2 h2
  · exact hab
  · linarith
  · calc (⌊a / roundAmount a⌋ : ℚ) * roundAmount a ≤ a :=
        floor_mul_le a (roundAmount a) (roundAmount_pos a)
      _ ≤ b := hab
  · rcases eq_or_lt_of_le (roundAmount_mono hab) with he | hlt
    · rw [he]
      exact floor_mul_mono (roundAmount b) (roundAmount_pos b) hab
    · have hle := floor_mul_le a (roundAmount a) (roundAmount_pos a)
      have hcross := cross_band hab hlt
      linarith

/-- C8: with the development override off, `getCost` is round_to_nice of the
4·count^1.1 growth term; it is non-decreasing in the entity count (for all
counts 0 < a < b, cost a ≤ cost b), and an empty template costs exactly the
formula's value at count 0. -/
theorem blueprint_getCost_monotone (pow11 : Nat → ℚ) (hmono : Monotone pow11) :
    (∀ bp : Blueprint,
      Blueprint.getCost false pow11 bp = findNiceIntegerValue (pow11 bp.entities.length)) ∧
    (∀ a b : Blueprint, 0 < a.entities.length → a.entities.length < b.entities.length →
      Blueprint.getCost false pow11 a ≤ Blueprint.getCost false pow11 b) ∧
    (∀ bp : Blueprint, bp.entities = [] →
      Blueprint.getCost false pow11 bp = findNiceIntegerValue (pow11 0)) := by
  refine ⟨fun bp => rfl, ?_, ?_⟩
  · intro a b hpos hlt
    simp only [Blueprint.getCost, if_neg Bool.false_ne_true, findNiceIntegerValue]
    exact Int.ceil_le_ceil (findNiceValue_mono (hmono hlt.le))
  · intro bp h
    simp [Blueprint.getCost, h]

/-- The concrete monotone growth term used to instantiate the cost theorem
at a specific input. -/
def witnessPow : Nat → ℚ := fun n => 4 * n

/-- Witness for C8: the cost theorem applied at a concrete monotone growth
term and blueprints of one and two entities. -/
theorem blueprint_getCost_monotone_witness :
    Blueprint.getCost false witnessPow (Blueprint.mk [sampleEntity]) ≤
      Blueprint.getCost false witnessPow (Blueprint.mk [sampleEntity, sampleEntity]) :=
  (blueprint_getCost_monotone witnessPow
      (fun x y hxy => by
        simp only [witnessPow]
        have h : (x : ℚ) ≤ y := by exact_mod_cast hxy
        linarith)).2.1
    (Blueprint.mk [sampleEntity]) (Blueprint.mk [sampleEntity, sampleEntity])
    (by decide) (by decide)
